import Mathlib

/-!
Shallow embedding of the request-processing core of the `boot` framework:
the bounded invoker `Endpoint.Apply` (endpoint.go), the middleware chain
compiler `Pipeline.Compile` and runner `Pipeline.Run`, the `Operation`
interface (boot.go) and the `Supervisor` fault dispatch.  Concurrency is
modelled by describing the dynamic behaviour of one business-function
execution (how long it takes to deliver its completion signal, and what
value `recover()` yields) and resolving the `select` race deterministically
against the deadline.  Calls into collaborator methods whose bodies are
no-ops in the source (`Supervisor` methods of `Watchdog`, and the
`ReportIssue` implementations of `Endpoint`/`Aux`) are recorded as events
in an execution trace, so that claims counting such calls are statable.
-/

namespace Boot

/-- Go `error` interface values, compared by identity as Go does with `==`.
The two package-level sentinels of boot.go are distinct constructors; any
other error value (made by `errors.New`, `fmt.Errorf` or business code)
carries its message text.  No claim distinguishes two separately allocated
errors with equal text, so `mk` identifies an error by its text. -/
inductive Err where
  | operationTimeout
  | operationUnavailable
  | mk (msg : String)
deriving DecidableEq, Repr

/-- `Error()` text of an error value: the sentinels carry the messages given
to `errors.New` in boot.go. -/
def Err.text : Err → String
  | .operationTimeout => "operation timed out"
  | .operationUnavailable => "operation is not available"
  | .mk s => s

/-- One `%v` substitution pass over a format string, modelling the part of
`fmt.Errorf` exercised by endpoint.go (format constant with a single `%v`).
The argument is the `%v` rendering of the raw payload. -/
def substPercentV (arg : List Char) : List Char → List Char
  | '%' :: 'v' :: rest => arg ++ substPercentV arg rest
  | ch :: rest => ch :: substPercentV arg rest
  | [] => []

/-- `fmt.Sprintf` with one `%v` verb, as used by `fmt.Errorf` below. -/
def sprintf1 (fmt arg : String) : String :=
  { data := substPercentV arg.data fmt.data }

/-- The format constant `einv` of endpoint.go line 37. -/
def einv : String := "weird endpoint panic %v"

/-- `fmt.Errorf`: renders the format and wraps it as an error value. -/
def fmtErrorf (fmt arg : String) : Err := Err.mk (sprintf1 fmt arg)

/-- The application structure; only the field read by the embedded code is
modelled (`App.Env`, consulted by the availability check).  The supervisor
assigned to the app is the no-op `Watchdog`; calls into it are recorded as
trace events at the call sites in the pipeline's terminal closure. -/
structure App where
  Env : String

/-- Per-invocation context; only the back-reference read by the embedded
code is modelled (`Context.App`, through which `Apply` reads the
environment name). -/
structure Context where
  App : App

/-- Dynamic behaviour of one execution of a business function: how it ends
(normal return, or a panic with a nil / error / other payload).  For a
non-error non-nil payload we keep its `%v` rendering, which is all the
bounded invoker ever looks at. -/
inductive BizResult where
  | ok
  | panicNil
  | panicErr (e : Err)
  | panicOther (rendered : String)
deriving DecidableEq, Repr

/-- The value an `interface{}` channel slot can carry after `recover()`:
nil, an error value, or some other non-nil payload. -/
inductive GoValue where
  | nil
  | err (e : Err)
  | other (rendered : String)
deriving DecidableEq, Repr

/-- What `recover()` returns at the top of the wrapped goroutine, delivered
on the completion channel: a normal return leaves `paniced` nil, and (in the
Go version this code targets) `panic(nil)` also makes `recover()` return
nil, so both deliver the nil sentinel. -/
def recoverValue : BizResult → GoValue
  | .ok => .nil
  | .panicNil => .nil
  | .panicErr e => .err e
  | .panicOther v => .other v

/-- Model of one business function: applied to a context it takes `dur`
time units to deliver its completion signal, ending as `res`. -/
structure BizSpec where
  dur : Nat
  res : BizResult

/-- Route-bound operation (endpoint.go).  The fields read by the embedded
methods are modelled: the per-environment availability map (lookup defaults
to false, as a Go `map[string]bool` does), the deadline, and the business
function (whose dynamic behaviour is a `BizSpec`).  The remaining fields
(pattern, methods, description, ...) are never read by the code under
verification. -/
structure Endpoint where
  Available : String → Bool
  Timeout : Nat
  Business : Context → BizSpec

/-- Events of an execution trace: the business function being invoked, a
(test) middleware running, each `Supervisor` fault method being called, and
the operation's `ReportIssue` hook being called. -/
inductive Event where
  | bizCall
  | mwEnter (tag : Nat)
  | svOperationUnavailable
  | svOperationTimeout
  | svOperationPaniced (e : Err)
  | reportIssue (e : Err)
deriving DecidableEq, Repr

/-- Result of one call to the bounded invoker `Endpoint.Apply`: the returned
error value (`none` models returning nil), the time at which `Apply`
returns, whether the business goroutine was spawned, the time at which that
goroutine writes its completion value into the (buffered, size 1) `flag`
channel if it was spawned, whether `Apply` itself read that channel, and
the trace of calls made (the goroutine body invokes `ep.Business` exactly
once, recorded as `Event.bizCall`). -/
structure ApplyOut where
  ret : Option Err
  retTime : Nat
  bizStarted : Bool
  flagWrite : Option Nat
  flagRead : Bool
  trace : List Event
deriving DecidableEq, Repr

/-- The `switch e := x.(type)` of endpoint.go lines 53-58: an error payload
is returned as is, nil means the operation executed OK, and any other
payload is wrapped by `fmt.Errorf(einv, e)`. -/
def classify : GoValue → Option Err
  | .err e => some e
  | .nil => none
  | .other v => some (fmtErrorf einv v)

/-- The bounded invoker, endpoint.go lines 34-60.  The `select` race between
`time.After(ep.Timeout)` and the completion channel is resolved by comparing
the business function's delivery time with the deadline; when both are ready
at the same instant Go picks either, and the model resolves the tie to the
timer (the timer fires at or after the deadline, so a delivery not strictly
earlier may lose the race).  The goroutine's write into the buffered channel
always succeeds, at the delivery time, whether or not anybody reads it. -/
def Endpoint.Apply (ep : Endpoint) (c : Context) : ApplyOut :=
  if ep.Available c.App.Env = false then
    { ret := some Err.operationUnavailable, retTime := 0, bizStarted := false,
      flagWrite := none, flagRead := false, trace := [] }
  else
    let biz := ep.Business c
    if biz.dur < ep.Timeout then
      { ret := classify (recoverValue biz.res), retTime := biz.dur,
        bizStarted := true, flagWrite := some biz.dur, flagRead := true,
        trace := [Event.bizCall] }
    else
      { ret := some Err.operationTimeout, retTime := ep.Timeout,
        bizStarted := true, flagWrite := some biz.dur, flagRead := false,
        trace := [Event.bizCall] }

/-- `BiasedLogic` (boot.go): a function of a context; in the trace model it
yields the events of its execution. -/
abbrev BiasedLogic := Context → List Event

/-- `Middleware` (boot.go line 47): a function of a context and the next
callable. -/
abbrev Middleware := Context → BiasedLogic → List Event

/-- The `Operation` interface (boot.go lines 68-97) restricted to the two
capabilities the pipeline code consumes: `Apply` and `Intermediate` (a
method returning a fixed middleware list).  `ReportIssue` is a no-op in both
implementations (`Endpoint`, `Aux`); the call to it in the terminal closure
is recorded as an `Event.reportIssue` trace event at the call site.
`String()` is only used for logging and is not modelled. -/
structure Operation where
  Apply : Context → ApplyOut
  Intermediate : List Middleware

/-- The `Operation` instance of an `*Endpoint`: `Apply` as above, and
`Intermediate` returning nil (endpoint.go line 67). -/
def Endpoint.toOperation (ep : Endpoint) : Operation :=
  { Apply := ep.Apply, Intermediate := [] }

/-- Service structure; the only field read by `Pipeline.Compile` is its
middleware slice. -/
structure Service where
  Middleware : List Middleware

/-- The pipeline (part_000 lines 150-186): the compiled onion (`none` until
`Compile` runs: in the source the field is a nil function value), the
operation, the application pointer (set by `Compile`), and the owning
service. -/
structure Pipeline where
  onion : Option BiasedLogic
  Operation : Operation
  App : Option App
  Service : Service

/-- The innermost closure built first by `Pipeline.Compile` (part_000 lines
117-129): run the operation; if it ended with an error, dispatch on the
error value's identity to the supervisor (`OperationUnavailable` and
`OperationTimeout` compare against the package sentinels, anything else goes
to `OperationPaniced`), then call the operation's `ReportIssue` hook with
the same error.  Both the supervisor call and the `ReportIssue` call happen
inside the `err != nil` branch. -/
def terminalLayer (op : Operation) : BiasedLogic := fun c =>
  let out := op.Apply c
  out.trace ++
    match out.ret with
    | none => []
    | some e =>
      (match e with
        | Err.operationUnavailable => [Event.svOperationUnavailable]
        | Err.operationTimeout => [Event.svOperationTimeout]
        | e => [Event.svOperationPaniced e]) ++ [Event.reportIssue e]

/-- One step of the chaining loop of `Pipeline.Compile`: wrap the current
onion (`peek`) in one middleware layer. -/
def wrapLayer (current : Middleware) (peek : BiasedLogic) : BiasedLogic :=
  fun c => current c peek

/-- `Pipeline.Compile` (part_000 lines 115-143): remember the app, build the
terminal closure, concatenate the inherited service middleware with the
operation's own (`Intermediate`), and wrap the onion in the middleware from
the last to the first, so the first declared middleware becomes outermost.
The source contains no guard against recompilation: each call rebuilds the
onion from scratch. -/
def Pipeline.Compile (pipe : Pipeline) (app : Boot.App) : Pipeline :=
  let onion0 := terminalLayer pipe.Operation
  let middleware := pipe.Service.Middleware ++ pipe.Operation.Intermediate
  { pipe with App := some app, onion := some (middleware.foldr wrapLayer onion0) }

/-- `Pipeline.Run` (part_000 line 150): `pipe.onion(context)`.  Calling a
nil function value is a runtime panic in Go; the model returns `none` for
that case and `some` of the execution trace otherwise. -/
def Pipeline.Run (pipe : Pipeline) (c : Context) : Option (List Event) :=
  pipe.onion.map (fun f => f c)

/-- Assembly of a pipeline as done by the framework before compilation
(part_001 lines 163-164): operation and service set, onion and app not. -/
def mkPipeline (op : Operation) (srv : Service) : Pipeline :=
  { onion := none, Operation := op, App := none, Service := srv }

/-- A concrete middleware shape used to instantiate the claims (the analogue
of a logging middleware in a test): it records its tag and then either
forwards to the next callable exactly once or never calls it. -/
structure MWSpec where
  tag : Nat
  callsNext : Bool
deriving DecidableEq, Repr

/-- Denotation of an `MWSpec` as a middleware. -/
def MWSpec.run (m : MWSpec) : Middleware := fun c next =>
  Event.mwEnter m.tag :: (if m.callsNext then next c else [])

/-- Whether an event is a call to one of the supervisor's three
operation-fault methods. -/
def isSupervisorCall : Event → Bool
  | .svOperationUnavailable => true
  | .svOperationTimeout => true
  | .svOperationPaniced _ => true
  | _ => false

/-- The supervisor method selected by the error-identity switch in the
terminal closure of `Pipeline.Compile` for a non-nil error value. -/
def dispatchEvent : Err → Event
  | .operationUnavailable => Event.svOperationUnavailable
  | .operationTimeout => Event.svOperationTimeout
  | e => Event.svOperationPaniced e

/-- Rendering the `einv` format: the formatted text is the fixed message
followed by the `%v` rendering of the payload. -/
lemma sprintf1_einv (v : String) :
    (sprintf1 einv v).data = "weird endpoint panic ".data ++ v.data := by
  have h : substPercentV v.data einv.data
      = "weird endpoint panic ".data ++ (v.data ++ []) := rfl
  simpa [sprintf1] using h

section Fixtures

/-- Concrete application used by the witnesses. -/
def appW : App := { Env := "dev" }

/-- Concrete context used by the witnesses. -/
def ctxW : Context := { App := appW }

/-- Endpoint available in the witness environment, deadline 100, with the
given business behaviour. -/
def mkEp (spec : BizSpec) : Endpoint :=
  { Available := fun s => s == "dev", Timeout := 100, Business := fun _ => spec }

/-- Endpoint whose business function panics with a non-error payload. -/
def epC1 : Endpoint := mkEp { dur := 1, res := BizResult.panicOther "raw payload" }

/-- Endpoint whose business function outlives the deadline. -/
def epC4 : Endpoint := mkEp { dur := 200, res := BizResult.ok }

/-- Endpoint whose business function panics with a nil payload. -/
def epC10 : Endpoint := mkEp { dur := 1, res := BizResult.panicNil }

/-- Endpoint whose business function completes normally. -/
def epOkW : Endpoint := mkEp { dur := 1, res := BizResult.ok }

/-- Endpoint whose business function panics with the `OperationTimeout`
sentinel error value itself. -/
def epPanicTimeoutW : Endpoint :=
  mkEp { dur := 1, res := BizResult.panicErr Err.operationTimeout }

/-- Endpoint whose business function panics with an ordinary error value. -/
def epErrW : Endpoint := mkEp { dur := 1, res := BizResult.panicErr (Err.mk "boom") }

/-- Endpoint that is unavailable in every environment. -/
def epUnavailW : Endpoint :=
  { Available := fun _ => false, Timeout := 100,
    Business := fun _ => { dur := 1, res := BizResult.ok } }

/-- Pipeline around the normally completing endpoint whose only middleware
never forwards. -/
def pipeDropW : Pipeline :=
  mkPipeline epOkW.toOperation
    { Middleware := [MWSpec.run { tag := 0, callsNext := false }] }

/-- Pipeline around the unavailable endpoint whose only middleware never
forwards. -/
def pipeUnavailDropW : Pipeline :=
  mkPipeline epUnavailW.toOperation
    { Middleware := [MWSpec.run { tag := 0, callsNext := false }] }

/-- Pipeline around the endpoint that panics with the timeout sentinel,
with no middleware at all. -/
def pipePTW : Pipeline := mkPipeline epPanicTimeoutW.toOperation { Middleware := [] }

/-- Pipeline around the normally completing endpoint, with no middleware. -/
def pipeOkPlainW : Pipeline := mkPipeline epOkW.toOperation { Middleware := [] }

end Fixtures

/-- Whether an event is a call to the supervisor's `OperationPaniced`. -/
def isPanicedCall : Event → Bool
  | .svOperationPaniced _ => true
  | _ => false

/-- Whether an event is a call to the operation's `ReportIssue` hook. -/
def isReportCall : Event → Bool
  | .reportIssue _ => true
  | _ => false

/-- C1: for a business function whose completion signal wins the race
against the deadline on an available operation, `Endpoint.Apply` returns
(rather than unwinding a panic into the caller): a rendered error whose
text contains the `%v` rendering of the payload when the function panics
with a non-error, non-nil value; the error value itself, unmodified, when
it panics with an error value; and nil when it completes normally. -/
theorem apply_fault_isolation (ep : Endpoint) (c : Context)
    (hav : ep.Available c.App.Env = true)
    (hdl : (ep.Business c).dur < ep.Timeout) :
    (∀ v, (ep.Business c).res = BizResult.panicOther v →
      ∃ e, (ep.Apply c).ret = some e ∧
        ∃ pre post, e.text.data = pre ++ v.data ++ post) ∧
    (∀ e, (ep.Business c).res = BizResult.panicErr e →
      (ep.Apply c).ret = some e) ∧
    ((ep.Business c).res = BizResult.ok → (ep.Apply c).ret = none) := by
  refine ⟨?_, ?_, ?_⟩
  · intro v hres
    refine ⟨fmtErrorf einv v, ?_, "weird endpoint panic ".data, [], ?_⟩
    · simp [Endpoint.Apply, hav, hdl, hres, classify, recoverValue]
    · simp [fmtErrorf, Err.text, sprintf1_einv]
  · intro e hres
    simp [Endpoint.Apply, hav, hdl, hres, classify, recoverValue]
  · intro hres
    simp [Endpoint.Apply, hav, hdl, hres, classify, recoverValue]

/-- Witness for C1 at a concrete endpoint panicking with the non-error
payload rendered as "raw payload". -/
theorem apply_fault_isolation_witness :
    ∃ e, (epC1.Apply ctxW).ret = some e ∧
      ∃ pre post, e.text.data = pre ++ "raw payload".data ++ post :=
  (apply_fault_isolation epC1 ctxW rfl (by decide)).1 "raw payload" rfl

/-- C4: when the business function has not delivered its completion signal
by the time the deadline timer elapses, `Apply` returns the timeout
sentinel exactly at the deadline (not after the business function
finishes), the goroutine was started and is not cancelled: it still writes
its completion value into the buffered channel at its own delivery time,
and `Apply` never reads that channel. -/
theorem apply_timeout_behavior (ep : Endpoint) (c : Context)
    (hav : ep.Available c.App.Env = true)
    (hdl : ep.Timeout ≤ (ep.Business c).dur) :
    (ep.Apply c).ret = some Err.operationTimeout ∧
    (ep.Apply c).retTime = ep.Timeout ∧
    (ep.Apply c).retTime ≤ (ep.Business c).dur ∧
    (ep.Apply c).bizStarted = true ∧
    (ep.Apply c).flagWrite = some (ep.Business c).dur ∧
    (ep.Apply c).flagRead = false := by
  have hnot : ¬ (ep.Business c).dur < ep.Timeout := not_lt.mpr hdl
  simp [Endpoint.Apply, hav, hnot, hdl]

/-- Witness for C4 at a concrete endpoint sleeping past its deadline. -/
theorem apply_timeout_behavior_witness :
    epC4.Timeout ≤ (epC4.Business ctxW).dur ∧
    (epC4.Apply ctxW).ret = some Err.operationTimeout ∧
    (epC4.Apply ctxW).flagRead = false :=
  ⟨by decide, (apply_timeout_behavior epC4 ctxW rfl (by decide)).1,
    (apply_timeout_behavior epC4 ctxW rfl (by decide)).2.2.2.2.2⟩

/-- C10: a business function that panics with a nil payload is classified
exactly like a normal completion: `Apply` returns nil, the terminal layer
makes no supervisor call and no `ReportIssue` call, and the `Apply` output
is identical to that of an endpoint whose business function returns
normally with the same timing - the nil panic is invisible at the public
interface. -/
theorem nil_panic_success (ep : Endpoint) (c : Context)
    (hav : ep.Available c.App.Env = true)
    (hdl : (ep.Business c).dur < ep.Timeout)
    (hres : (ep.Business c).res = BizResult.panicNil) :
    (ep.Apply c).ret = none ∧
    terminalLayer ep.toOperation c = [Event.bizCall] ∧
    (∀ ep2 : Endpoint, ep2.Available = ep.Available → ep2.Timeout = ep.Timeout →
      (ep2.Business c).dur = (ep.Business c).dur →
      (ep2.Business c).res = BizResult.ok →
      ep2.Apply c = ep.Apply c) := by
  have hret : (ep.Apply c).ret = none := by
    simp [Endpoint.Apply, hav, hdl, hres, classify, recoverValue]
  refine ⟨hret, ?_, ?_⟩
  · simp [terminalLayer, Endpoint.toOperation, Endpoint.Apply, hav, hdl, hres,
      classify, recoverValue]
  · intro ep2 hA hT hd hr
    simp [Endpoint.Apply, hav, hdl, hres, hA, hT, hd, hr, classify, recoverValue]

/-- Witness for C10 at a concrete endpoint panicking with nil: the result
is nil and the whole `Apply` output coincides with the normally completing
endpoint's output. -/
theorem nil_panic_success_witness :
    (epC10.Apply ctxW).ret = none ∧ epOkW.Apply ctxW = epC10.Apply ctxW :=
  ⟨(nil_panic_success epC10 ctxW rfl (by decide) rfl).1,
    (nil_panic_success epC10 ctxW rfl (by decide) rfl).2.2 epOkW rfl rfl rfl rfl⟩

/-- Unfolding one onion layer built from an `MWSpec` middleware. -/
lemma foldr_wrap_cons (m : MWSpec) (ms : List MWSpec) (inner : BiasedLogic)
    (c : Context) :
    (((m :: ms).map MWSpec.run).foldr wrapLayer inner) c =
      Event.mwEnter m.tag ::
        (if m.callsNext then ((ms.map MWSpec.run).foldr wrapLayer inner) c else []) :=
  rfl

/-- A chain of forwarding middleware runs each of them once, in list order,
and then the inner layer. -/
lemma foldr_wrap_passthrough (ms : List MWSpec) (inner : BiasedLogic)
    (c : Context) (h : ∀ m ∈ ms, m.callsNext = true) :
    ((ms.map MWSpec.run).foldr wrapLayer inner) c =
      ms.map (fun m => Event.mwEnter m.tag) ++ inner c := by
  induction ms with
  | nil => rfl
  | cons m ms ih =>
    have hm : m.callsNext = true := h m (List.mem_cons_self m ms)
    have hms : ∀ x ∈ ms, x.callsNext = true :=
      fun x hx => h x (List.mem_cons_of_mem m hx)
    simp [foldr_wrap_cons, wrapLayer, MWSpec.run, hm, ih hms]

/-- Every event of a chain built from `MWSpec` middleware is either one of
their entry events or an event of the inner layer. -/
lemma foldr_wrap_events (ms : List MWSpec) (inner : BiasedLogic) (c : Context) :
    ∀ e ∈ ((ms.map MWSpec.run).foldr wrapLayer inner) c,
      (∃ t, e = Event.mwEnter t) ∨ e ∈ inner c := by
  induction ms with
  | nil => intro e he; exact Or.inr he
  | cons m ms ih =>
    intro e he
    rw [foldr_wrap_cons] at he
    rcases List.mem_cons.mp he with h | h
    · exact Or.inl ⟨m.tag, h⟩
    · cases hm : m.callsNext with
      | false => rw [hm] at h; simp at h
      | true => rw [hm] at h; simp only [if_true] at h; exact ih e h

/-- If the middleware at position `i` never forwards, every event of the
chain is the entry event of a middleware at a position at most `i`: the
inner layer and all later layers contribute nothing. -/
lemma foldr_wrap_drop (ms : List MWSpec) (inner : BiasedLogic) (c : Context)
    (i : Nat) (hi : i < ms.length) (hdrop : ms[i].callsNext = false) :
    ∀ e ∈ ((ms.map MWSpec.run).foldr wrapLayer inner) c,
      ∃ j, ∃ hj : j < ms.length, j ≤ i ∧ e = Event.mwEnter ms[j].tag := by
  induction ms generalizing i with
  | nil => exact absurd hi (Nat.not_lt_zero i)
  | cons m ms ih =>
    intro e he
    rw [foldr_wrap_cons] at he
    rcases List.mem_cons.mp he with h | h
    · exact ⟨0, Nat.succ_pos _, Nat.zero_le i, by simpa using h⟩
    · cases hm : m.callsNext with
      | false => rw [hm] at h; simp at h
      | true =>
        rw [hm] at h; simp only [if_true] at h
        cases i with
        | zero =>
          rw [List.getElem_cons_zero] at hdrop
          rw [hdrop] at hm; cases hm
        | succ k =>
          have hk : k < ms.length := Nat.lt_of_succ_lt_succ hi
          have hdrop2 : ms[k].callsNext = false := by simpa using hdrop
          obtain ⟨j, hj, hji, hje⟩ := ih k hk hdrop2 e h
          exact ⟨j + 1, Nat.succ_lt_succ hj, Nat.succ_le_succ hji, by simpa using hje⟩

/-- C5: a pipeline compiled from a service middleware list and an operation
middleware list, all of whose middleware forward to their next callable,
runs the service-level middleware first, then the operation's own, in
declaration order within each group, and the terminal layer (the business
invocation wrapped with outcome dispatch) last. -/
theorem middleware_order (svc ops : List MWSpec) (ap : Context → ApplyOut)
    (app : App) (c : Context)
    (hsvc : ∀ m ∈ svc, m.callsNext = true)
    (hops : ∀ m ∈ ops, m.callsNext = true) :
    (Pipeline.Compile
        (mkPipeline { Apply := ap, Intermediate := ops.map MWSpec.run }
          { Middleware := svc.map MWSpec.run }) app).Run c
      = some (svc.map (fun m => Event.mwEnter m.tag)
          ++ ops.map (fun m => Event.mwEnter m.tag)
          ++ terminalLayer { Apply := ap, Intermediate := ops.map MWSpec.run } c) := by
  have hall : ∀ m ∈ svc ++ ops, m.callsNext = true := by
    intro m hm
    rcases List.mem_append.mp hm with h | h
    exacts [hsvc m h, hops m h]
  simp only [Pipeline.Run, Pipeline.Compile, mkPipeline, Option.map_some,
    Option.map]
  rw [← List.map_append, foldr_wrap_passthrough _ _ _ hall]
  simp

/-- Witness for C5: one service-level middleware (tag 0) and one
operation-level middleware (tag 1), both forwarding, around a normally
completing endpoint: tag 0 runs, then tag 1, then the terminal layer. -/
theorem middleware_order_witness :
    (Pipeline.Compile
        (mkPipeline { Apply := epOkW.Apply, Intermediate := [MWSpec.run { tag := 1, callsNext := true }] }
          { Middleware := [MWSpec.run { tag := 0, callsNext := true }] }) appW).Run ctxW
      = some (Event.mwEnter 0 :: Event.mwEnter 1 ::
          terminalLayer { Apply := epOkW.Apply, Intermediate := [MWSpec.run { tag := 1, callsNext := true }] } ctxW) := by
  have h := middleware_order [{ tag := 0, callsNext := true }]
    [{ tag := 1, callsNext := true }] epOkW.Apply appW ctxW (by decide) (by decide)
  simpa using h

/-- C6: if the middleware at position `i` of the compiled chain (service
middleware followed by operation middleware) never invokes its next
callable, then one invocation of `Run` never executes the business function
and never executes any middleware at a later position, for every context. -/
theorem middleware_short_circuit (svc ops : List MWSpec)
    (ap : Context → ApplyOut) (app : App) (c : Context) (i : Nat)
    (hi : i < (svc ++ ops).length)
    (hdrop : (svc ++ ops)[i].callsNext = false)
    (hnodup : ((svc ++ ops).map MWSpec.tag).Nodup) :
    ∃ tr, (Pipeline.Compile
        (mkPipeline { Apply := ap, Intermediate := ops.map MWSpec.run }
          { Middleware := svc.map MWSpec.run }) app).Run c = some tr ∧
      Event.bizCall ∉ tr ∧
      ∀ j, i < j → ∀ hj : j < (svc ++ ops).length,
        Event.mwEnter (svc ++ ops)[j].tag ∉ tr := by
  refine ⟨(((svc ++ ops).map MWSpec.run).foldr wrapLayer
      (terminalLayer { Apply := ap, Intermediate := ops.map MWSpec.run })) c,
    ?_, ?_, ?_⟩
  · simp only [Pipeline.Run, Pipeline.Compile, mkPipeline, Option.map_some,
      Option.map, List.map_append]
  · intro hmem
    obtain ⟨j, hj, hji, hje⟩ := foldr_wrap_drop _ _ _ i hi hdrop _ hmem
    cases hje
  · intro j hij hj hmem
    obtain ⟨j2, hj2, hj2i, hje⟩ := foldr_wrap_drop _ _ _ i hi hdrop _ hmem
    have htag : (svc ++ ops)[j].tag = (svc ++ ops)[j2].tag :=
      Event.mwEnter.inj hje
    have hjm : j < ((svc ++ ops).map MWSpec.tag).length := by simpa using hj
    have hj2m : j2 < ((svc ++ ops).map MWSpec.tag).length := by simpa using hj2
    have hmap : ((svc ++ ops).map MWSpec.tag)[j] = ((svc ++ ops).map MWSpec.tag)[j2] := by
      simp only [List.getElem_map]; exact htag
    have : j = j2 := (List.Nodup.getElem_inj_iff hnodup).mp hmap
    omega

/-- Witness for C6: three forwarding-or-not middleware with the one at
position 1 dropping the chain: the business function and the middleware at
position 2 never run. -/
theorem middleware_short_circuit_witness :
    ∃ tr, (Pipeline.Compile
        (mkPipeline { Apply := epOkW.Apply, Intermediate := [MWSpec.run { tag := 2, callsNext := true }] }
          { Middleware := [MWSpec.run { tag := 0, callsNext := true }, MWSpec.run { tag := 1, callsNext := false }] }) appW).Run ctxW = some tr ∧
      Event.bizCall ∉ tr ∧
      ∀ j, 1 < j →
        ∀ hj : j < ([{ tag := 0, callsNext := true }, { tag := 1, callsNext := false }] ++ [{ tag := 2, callsNext := true }] : List MWSpec).length,
        Event.mwEnter (([{ tag := 0, callsNext := true }, { tag := 1, callsNext := false }] ++ [{ tag := 2, callsNext := true }] : List MWSpec))[j].tag ∉ tr := by
  have h := middleware_short_circuit
    [{ tag := 0, callsNext := true }, { tag := 1, callsNext := false }]
    [{ tag := 2, callsNext := true }] epOkW.Apply appW ctxW 1
    (by decide) (by decide) (by decide)
  simpa using h

/-- The terminal closure on a successful application: nothing but the
operation's own trace (no dispatch, no `ReportIssue`). -/
lemma terminal_success (op : Operation) (c : Context)
    (h : (op.Apply c).ret = none) :
    terminalLayer op c = (op.Apply c).trace := by
  simp [terminalLayer, h]

/-- The terminal closure on a failed application: the operation's own trace
followed by the supervisor call selected by the error value's identity and
the `ReportIssue` call with that same error. -/
lemma terminal_fault (op : Operation) (c : Context) (e : Err)
    (h : (op.Apply c).ret = some e) :
    terminalLayer op c
      = (op.Apply c).trace ++ [dispatchEvent e, Event.reportIssue e] := by
  simp only [terminalLayer, h]
  cases e <;> rfl

/-- The bounded invoker's own trace is empty (no goroutine spawned) or the
single business-function invocation. -/
lemma apply_trace_cases (ep : Endpoint) (c : Context) :
    (ep.Apply c).trace = [] ∨ (ep.Apply c).trace = [Event.bizCall] := by
  by_cases h : ep.Available c.App.Env = false
  · left; simp [Endpoint.Apply, h]
  · by_cases h2 : (ep.Business c).dur < ep.Timeout <;>
      right <;> simp [Endpoint.Apply, h, h2]

/-- C2 counterexample to the claim as stated: a compiled pipeline whose
operation is available and whose business function completes normally well
before the deadline, but whose (service-level) middleware never forwards:
one invocation of `Run` calls the business function zero times, not exactly
once. -/
theorem run_success_counts_counterexample :
    epOkW.Available ctxW.App.Env = true ∧
    (epOkW.Business ctxW).res = BizResult.ok ∧
    (epOkW.Business ctxW).dur < epOkW.Timeout ∧
    (pipeDropW.Compile appW).Run ctxW = some [Event.mwEnter 0] ∧
    [Event.mwEnter 0].count Event.bizCall = 0 := by
  refine ⟨rfl, rfl, by decide, by decide, by decide⟩

/-- C2 (amended): for every compiled pipeline in which every middleware
forwards to its next callable exactly once, with the operation available
and a business function completing normally before the deadline, one
invocation of `Run` calls the business function exactly once and makes
zero calls to any supervisor method. -/
theorem run_success_counts (svc ops : List MWSpec) (ep : Endpoint)
    (app : App) (c : Context)
    (hsvc : ∀ m ∈ svc, m.callsNext = true)
    (hops : ∀ m ∈ ops, m.callsNext = true)
    (hav : ep.Available c.App.Env = true)
    (hdl : (ep.Business c).dur < ep.Timeout)
    (hok : (ep.Business c).res = BizResult.ok) :
    ∃ tr, (Pipeline.Compile
        (mkPipeline { Apply := ep.Apply, Intermediate := ops.map MWSpec.run }
          { Middleware := svc.map MWSpec.run }) app).Run c = some tr ∧
      tr.count Event.bizCall = 1 ∧
      tr.countP (fun e => isSupervisorCall e) = 0 := by
  have hall : ∀ m ∈ svc ++ ops, m.callsNext = true := by
    intro m hm
    rcases List.mem_append.mp hm with h | h
    exacts [hsvc m h, hops m h]
  have hterm : terminalLayer
      { Apply := ep.Apply, Intermediate := ops.map MWSpec.run } c
      = [Event.bizCall] := by
    have hret : (ep.Apply c).ret = none := by
      simp [Endpoint.Apply, hav, hdl, hok, classify, recoverValue]
    have htr : (ep.Apply c).trace = [Event.bizCall] := by
      simp [Endpoint.Apply, hav, hdl]
    have := terminal_success
      { Apply := ep.Apply, Intermediate := ops.map MWSpec.run } c hret
    rw [this, htr]
  refine ⟨(svc ++ ops).map (fun m => Event.mwEnter m.tag) ++ [Event.bizCall],
    ?_, ?_, ?_⟩
  · simp only [Pipeline.Run, Pipeline.Compile, mkPipeline, Option.map_some,
      Option.map]
    rw [← List.map_append, foldr_wrap_passthrough _ _ _ hall, hterm]
  · rw [List.count_append]
    have h0 : ((svc ++ ops).map (fun m => Event.mwEnter m.tag)).count
        Event.bizCall = 0 := by
      rw [List.count_eq_zero]
      simp
    rw [h0]
    rfl
  · rw [List.countP_append]
    have h0 : ((svc ++ ops).map (fun m => Event.mwEnter m.tag)).countP
        (fun e => isSupervisorCall e) = 0 := by
      rw [List.countP_eq_zero]
      intro e he
      obtain ⟨m, hm, rfl⟩ := List.mem_map.mp he
      simp [isSupervisorCall]
    rw [h0]
    rfl

/-- Witness for the amended C2: one forwarding middleware around a normally
completing available endpoint. -/
theorem run_success_counts_witness :
    ∃ tr, (Pipeline.Compile
        (mkPipeline { Apply := epOkW.Apply, Intermediate := [] }
          { Middleware := [MWSpec.run { tag := 0, callsNext := true }] }) appW).Run ctxW
      = some tr ∧
      tr.count Event.bizCall = 1 ∧
      tr.countP (fun e => isSupervisorCall e) = 0 := by
  have h := run_success_counts [{ tag := 0, callsNext := true }] [] epOkW
    appW ctxW (by decide) (by decide) rfl (by decide) rfl
  simpa using h

/-- C3 counterexample to the claim as stated: an operation unavailable in
the context's environment, behind a middleware that never forwards: `Run`
dispatches zero `Unavailable` outcomes, not exactly one. -/
theorem unavailable_dispatch_counterexample :
    epUnavailW.Available ctxW.App.Env = false ∧
    (pipeUnavailDropW.Compile appW).Run ctxW = some [Event.mwEnter 0] ∧
    [Event.mwEnter 0].count Event.svOperationUnavailable = 0 := by
  refine ⟨rfl, by decide, by decide⟩

/-- C3 (amended): for an operation unavailable in the context's
environment, the bounded invoker never starts a business-function
goroutine, a run through any chain of the logging middleware never reaches
the business function, and one invocation of `Run` through middleware that
all forward dispatches exactly one `Unavailable` outcome to the
supervisor's `OperationUnavailable` method (and no other supervisor
method). -/
theorem unavailable_dispatch (svc ops : List MWSpec) (ep : Endpoint)
    (app : App) (c : Context)
    (hunav : ep.Available c.App.Env = false) :
    (ep.Apply c).bizStarted = false ∧
    (∀ tr, (Pipeline.Compile
        (mkPipeline { Apply := ep.Apply, Intermediate := ops.map MWSpec.run }
          { Middleware := svc.map MWSpec.run }) app).Run c = some tr →
      Event.bizCall ∉ tr) ∧
    ((∀ m ∈ svc, m.callsNext = true) → (∀ m ∈ ops, m.callsNext = true) →
      ∃ tr, (Pipeline.Compile
        (mkPipeline { Apply := ep.Apply, Intermediate := ops.map MWSpec.run }
          { Middleware := svc.map MWSpec.run }) app).Run c = some tr ∧
        tr.count Event.svOperationUnavailable = 1 ∧
        tr.countP (fun e => isSupervisorCall e) = 1) := by
  have hterm : terminalLayer
      { Apply := ep.Apply, Intermediate := ops.map MWSpec.run } c
      = [Event.svOperationUnavailable, Event.reportIssue Err.operationUnavailable] := by
    have hret : (ep.Apply c).ret = some Err.operationUnavailable := by
      simp [Endpoint.Apply, hunav]
    have htr : (ep.Apply c).trace = [] := by
      simp [Endpoint.Apply, hunav]
    have := terminal_fault
      { Apply := ep.Apply, Intermediate := ops.map MWSpec.run } c
      Err.operationUnavailable hret
    rw [this, htr]
    rfl
  refine ⟨?_, ?_, ?_⟩
  · simp [Endpoint.Apply, hunav]
  · intro tr htr hmem
    have hrun : tr = (((svc ++ ops).map MWSpec.run).foldr wrapLayer
        (terminalLayer { Apply := ep.Apply, Intermediate := ops.map MWSpec.run })) c := by
      simp only [Pipeline.Run, Pipeline.Compile, mkPipeline, Option.map_some,
        Option.map] at htr
      rw [← List.map_append] at htr
      exact (Option.some_injective _ htr).symm
    rw [hrun] at hmem
    rcases foldr_wrap_events _ _ _ _ hmem with ⟨t, ht⟩ | hin
    · cases ht
    · rw [hterm] at hin
      simp at hin
  · intro hsvc hops
    have hall : ∀ m ∈ svc ++ ops, m.callsNext = true := by
      intro m hm
      rcases List.mem_append.mp hm with h | h
      exacts [hsvc m h, hops m h]
    refine ⟨(svc ++ ops).map (fun m => Event.mwEnter m.tag)
        ++ [Event.svOperationUnavailable, Event.reportIssue Err.operationUnavailable],
      ?_, ?_, ?_⟩
    · simp only [Pipeline.Run, Pipeline.Compile, mkPipeline, Option.map_some,
        Option.map]
      rw [← List.map_append, foldr_wrap_passthrough _ _ _ hall, hterm]
    · rw [List.count_append]
      have h0 : ((svc ++ ops).map (fun m => Event.mwEnter m.tag)).count
          Event.svOperationUnavailable = 0 := by
        rw [List.count_eq_zero]
        simp
      rw [h0]
      rfl
    · rw [List.countP_append]
      have h0 : ((svc ++ ops).map (fun m => Event.mwEnter m.tag)).countP
          (fun e => isSupervisorCall e) = 0 := by
        rw [List.countP_eq_zero]
        intro e he
        obtain ⟨m, hm, rfl⟩ := List.mem_map.mp he
        simp [isSupervisorCall]
      rw [h0]
      rfl

/-- Witness for the amended C3: unavailable endpoint behind one forwarding
middleware: no business call, one `OperationUnavailable` dispatch. -/
theorem unavailable_dispatch_witness :
    (epUnavailW.Apply ctxW).bizStarted = false ∧
    ∃ tr, (Pipeline.Compile
        (mkPipeline { Apply := epUnavailW.Apply, Intermediate := [] }
          { Middleware := [MWSpec.run { tag := 0, callsNext := true }] }) appW).Run ctxW
      = some tr ∧
      tr.count Event.svOperationUnavailable = 1 ∧
      tr.countP (fun e => isSupervisorCall e) = 1 := by
  have h := unavailable_dispatch [{ tag := 0, callsNext := true }] [] epUnavailW
    appW ctxW rfl
  have h2 := h.2.2 (by decide) (by decide)
  exact ⟨h.1, by simpa using h2⟩

/-- C7 counterexample to the claim as stated: a business function that
panics (before the deadline, on an available operation) with the
`OperationTimeout` sentinel error value itself.  The invocation's outcome
is a business error - the panic carried structured error information - yet
the supervisor method invoked is `OperationTimeout`, not `OperationPaniced`,
because the dispatch switches on the returned error value's identity. -/
theorem dispatch_selection_counterexample :
    (epPanicTimeoutW.Business ctxW).res = BizResult.panicErr Err.operationTimeout ∧
    (epPanicTimeoutW.Business ctxW).dur < epPanicTimeoutW.Timeout ∧
    epPanicTimeoutW.Available ctxW.App.Env = true ∧
    (pipePTW.Compile appW).Run ctxW
      = some [Event.bizCall, Event.svOperationTimeout,
          Event.reportIssue Err.operationTimeout] ∧
    [Event.bizCall, Event.svOperationTimeout,
        Event.reportIssue Err.operationTimeout].countP
      (fun e => isPanicedCall e) = 0 := by
  refine ⟨rfl, by decide, rfl, by decide, by decide⟩

/-- C7 (amended): per failed invocation (through middleware that all
forward), exactly one supervisor fault method is invoked, selected by the
identity of the error value the bounded invoker returned: the
`OperationUnavailable` sentinel invokes `OperationUnavailable`, the
`OperationTimeout` sentinel invokes `OperationTimeout`, and every other
error value (business panics with non-sentinel errors, and rendered
unexpected-fault payloads) invokes `OperationPaniced`; a business panic
whose error value is a sentinel is therefore dispatched to that sentinel's
method.  The `ReportIssue` hook also receives the same error exactly
once. -/
theorem dispatch_selection (svc ops : List MWSpec) (ep : Endpoint)
    (app : App) (c : Context) (e : Err)
    (hsvc : ∀ m ∈ svc, m.callsNext = true)
    (hops : ∀ m ∈ ops, m.callsNext = true)
    (hret : (ep.Apply c).ret = some e) :
    ∃ tr, (Pipeline.Compile
        (mkPipeline { Apply := ep.Apply, Intermediate := ops.map MWSpec.run }
          { Middleware := svc.map MWSpec.run }) app).Run c = some tr ∧
      tr.countP (fun x => isSupervisorCall x) = 1 ∧
      tr.count (dispatchEvent e) = 1 ∧
      tr.count (Event.reportIssue e) = 1 := by
  have hall : ∀ m ∈ svc ++ ops, m.callsNext = true := by
    intro m hm
    rcases List.mem_append.mp hm with h | h
    exacts [hsvc m h, hops m h]
  have hterm := terminal_fault
    { Apply := ep.Apply, Intermediate := ops.map MWSpec.run } c e hret
  have hde_ne_biz : dispatchEvent e ≠ Event.bizCall := by
    cases e <;> simp [dispatchEvent]
  have hde_ne_rep : dispatchEvent e ≠ Event.reportIssue e := by
    cases e <;> simp [dispatchEvent]
  have hde_sup : isSupervisorCall (dispatchEvent e) = true := by
    cases e <;> rfl
  have htrc := apply_trace_cases ep c
  have hA_sup : ((svc ++ ops).map (fun m => Event.mwEnter m.tag)).countP
      (fun x => isSupervisorCall x) = 0 := by
    rw [List.countP_eq_zero]
    intro x hx
    obtain ⟨m, hm, rfl⟩ := List.mem_map.mp hx
    simp [isSupervisorCall]
  have hA_de : ((svc ++ ops).map (fun m => Event.mwEnter m.tag)).count
      (dispatchEvent e) = 0 := by
    rw [List.count_eq_zero]
    intro hx
    obtain ⟨m, hm, hEq⟩ := List.mem_map.mp hx
    cases e <;> simp [dispatchEvent] at hEq
  have hA_rep : ((svc ++ ops).map (fun m => Event.mwEnter m.tag)).count
      (Event.reportIssue e) = 0 := by
    rw [List.count_eq_zero]
    intro hx
    obtain ⟨m, hm, hEq⟩ := List.mem_map.mp hx
    cases hEq
  refine ⟨(svc ++ ops).map (fun m => Event.mwEnter m.tag)
      ++ ((ep.Apply c).trace ++ [dispatchEvent e, Event.reportIssue e]),
    ?_, ?_, ?_, ?_⟩
  · simp only [Pipeline.Run, Pipeline.Compile, mkPipeline, Option.map_some,
      Option.map]
    rw [← List.map_append, foldr_wrap_passthrough _ _ _ hall, hterm]
  · rw [List.countP_append, hA_sup]
    have hrep_nsup : isSupervisorCall (Event.reportIssue e) = false := rfl
    have hbiz_nsup : isSupervisorCall Event.bizCall = false := rfl
    rcases htrc with h | h <;>
      simp [h, List.countP_cons, hde_sup, hrep_nsup, hbiz_nsup]
  · rw [List.count_append, hA_de]
    rcases htrc with h | h <;>
      simp [h, List.count_cons, hde_ne_biz.symm, hde_ne_rep, Ne.symm hde_ne_rep]
  · rw [List.count_append, hA_rep]
    rcases htrc with h | h <;>
      simp [h, List.count_cons, hde_ne_rep, Ne.symm hde_ne_rep]

/-- Witness for the amended C7: an endpoint panicking with an ordinary
error behind one forwarding middleware: one supervisor call, namely
`OperationPaniced` with that error, and one `ReportIssue` call. -/
theorem dispatch_selection_witness :
    ∃ tr, (Pipeline.Compile
        (mkPipeline { Apply := epErrW.Apply, Intermediate := [] }
          { Middleware := [MWSpec.run { tag := 0, callsNext := true }] }) appW).Run ctxW
      = some tr ∧
      tr.countP (fun x => isSupervisorCall x) = 1 ∧
      tr.count (dispatchEvent (Err.mk "boom")) = 1 ∧
      tr.count (Event.reportIssue (Err.mk "boom")) = 1 := by
  have h := dispatch_selection [{ tag := 0, callsNext := true }] [] epErrW
    appW ctxW (Err.mk "boom") (by decide) (by decide) (by decide)
  simpa using h

/-- C8 counterexample to the claim as stated: on a successful invocation
the terminal layer does not call the operation's `ReportIssue` hook at all
- the call sits inside the non-nil-error branch. -/
theorem report_issue_counterexample :
    (epOkW.Apply ctxW).ret = none ∧
    (pipeOkPlainW.Compile appW).Run ctxW = some [Event.bizCall] ∧
    [Event.bizCall].countP (fun e => isReportCall e) = 0 := by
  refine ⟨by decide, by decide, by decide⟩

/-- C8 (amended): the terminal layer calls the operation's `ReportIssue`
hook with the invocation's outcome exactly on the non-Success outcomes: on
a nil result no `ReportIssue` call is made, and on an error result exactly
one `ReportIssue` call is made, carrying that error. -/
theorem report_issue_on_fault_only (ep : Endpoint) (c : Context) :
    ((ep.Apply c).ret = none →
      (terminalLayer ep.toOperation c).countP (fun e => isReportCall e) = 0) ∧
    (∀ e, (ep.Apply c).ret = some e →
      (terminalLayer ep.toOperation c).countP (fun e => isReportCall e) = 1 ∧
      (terminalLayer ep.toOperation c).count (Event.reportIssue e) = 1) := by
  have htrc := apply_trace_cases ep c
  constructor
  · intro h
    rw [terminal_success ep.toOperation c h]
    rcases htrc with h2 | h2 <;>
      · show ((ep.Apply c).trace).countP _ = 0
        rw [h2]
        rfl
  · intro e h
    rw [terminal_fault ep.toOperation c e h]
    constructor
    · rw [List.countP_append]
      have hrep_rep : isReportCall (Event.reportIssue e) = true := rfl
      have hde_nrep : isReportCall (dispatchEvent e) = false := by
        cases e <;> rfl
      have hbiz_nrep : isReportCall Event.bizCall = false := rfl
      rcases htrc with h2 | h2 <;>
        · show ((ep.Apply c).trace).countP _ + _ = 1
          rw [h2]
          simp [List.countP_cons, hrep_rep, hde_nrep, hbiz_nrep]
    · rw [List.count_append]
      have hne : dispatchEvent e ≠ Event.reportIssue e := by
        cases e <;> simp [dispatchEvent]
      rcases htrc with h2 | h2 <;>
        · show ((ep.Apply c).trace).count _ + _ = 1
          rw [h2]
          simp [List.count_cons, Ne.symm hne]

/-- Witness for the amended C8: no `ReportIssue` call on the successful
endpoint, one on the panicking endpoint. -/
theorem report_issue_on_fault_only_witness :
    (terminalLayer epOkW.toOperation ctxW).countP (fun e => isReportCall e) = 0 ∧
    (terminalLayer epErrW.toOperation ctxW).count
      (Event.reportIssue (Err.mk "boom")) = 1 :=
  ⟨(report_issue_on_fault_only epOkW ctxW).1 (by decide),
    ((report_issue_on_fault_only epErrW ctxW).2 (Err.mk "boom") (by decide)).2⟩

/-- C9 counterexample to the claim as stated: `Pipeline.Compile` has no
idempotent guard - a second call completes normally and leaves a working
compiled pipeline (here it runs the business function as usual), rather
than being a fatal error. -/
theorem compile_guard_counterexample :
    ((pipeOkPlainW.Compile appW).Compile appW).Run ctxW = some [Event.bizCall] ∧
    pipeOkPlainW.Run ctxW = none := by
  refine ⟨by decide, rfl⟩

/-- C9 (amended): `Compile` carries no idempotent guard: recompiling an
already compiled pipeline succeeds and behaves exactly like compiling the
original pipeline with the latest application (each call rebuilds the
onion from scratch and overwrites the previous one).  Invoking `Run` on a
never-compiled pipeline calls a nil function value, a runtime panic
(modelled as `none`). -/
theorem compile_recompile (pipe : Pipeline) (app app2 : App) (c : Context) :
    ((pipe.Compile app).Compile app2).Run c = (pipe.Compile app2).Run c ∧
    ((pipe.Compile app).Compile app2).App = some app2 ∧
    (pipe.onion = none → pipe.Run c = none) := by
  refine ⟨rfl, rfl, fun h => ?_⟩
  simp [Pipeline.Run, h]

/-- Witness for the amended C9: the assembled but never compiled pipeline
has no onion, and running it is the nil-function panic. -/
theorem compile_recompile_witness :
    pipeOkPlainW.onion = none ∧ pipeOkPlainW.Run ctxW = none :=
  ⟨rfl, (compile_recompile pipeOkPlainW appW appW ctxW).2.2 rfl⟩

end Boot
